import Mathlib

/-!
Verification of the resilience / admission-control layer of the
`erni-foto-agency` example application: the `TokenBucket` / `RateLimiter`
pair (`performance/rate_limiter.py`), the `SessionManager` resource pool
(`session/session_manager.py`), and the `CircuitBreaker` state machine
(whose implementation module is exercised by `tests/unit/test_circuit_breaker.py`).

Python floats for token counts, rates and wall-clock times are embedded as
rationals (`ℚ`); wall-clock time is passed explicitly to every operation
that reads `time.time()` in the source.  Statistics counters are embedded
with their source types (`int` as `ℤ` or `ℕ`, `float` as `ℚ`).
-/

/-- `TokenBucket` (rate_limiter.py): `capacity`, `refill_rate`, current
`tokens` and `last_refill_time`. -/
structure TokenBucket where
  capacity : ℚ
  refill_rate : ℚ
  tokens : ℚ
  last_refill_time : ℚ
deriving DecidableEq

namespace TokenBucket

/-- `TokenBucket.__post_init__`: the bucket starts full, stamped with the
creation time. -/
def init (capacity refill_rate now : ℚ) : TokenBucket :=
  { capacity := capacity, refill_rate := refill_rate,
    tokens := capacity, last_refill_time := now }

/-- `TokenBucket._refill`: add `elapsed * refill_rate` tokens, capped at
`capacity`, and stamp `last_refill_time = now`. -/
def refill (b : TokenBucket) (now : ℚ) : TokenBucket :=
  let elapsed := now - b.last_refill_time
  let tokens_to_add := elapsed * b.refill_rate
  { b with tokens := min b.capacity (b.tokens + tokens_to_add),
           last_refill_time := now }

/-- `TokenBucket.consume`: refill, then subtract `n` tokens if available
(returning `true`), else leave the tokens unchanged (returning `false`). -/
def consume (b : TokenBucket) (now : ℚ) (n : ℚ) : Bool × TokenBucket :=
  let b1 := b.refill now
  if b1.tokens ≥ n then (true, { b1 with tokens := b1.tokens - n })
  else (false, b1)

/-- `TokenBucket.get_wait_time`: refill, then return `0` if `n` tokens are
available, else `(n - tokens) / refill_rate`. -/
def get_wait_time (b : TokenBucket) (now : ℚ) (n : ℚ) : ℚ × TokenBucket :=
  let b1 := b.refill now
  if b1.tokens ≥ n then (0, b1)
  else ((n - b1.tokens) / b1.refill_rate, b1)

/-- `TokenBucket.get_available_tokens`: refill, then read the token count. -/
def get_available_tokens (b : TokenBucket) (now : ℚ) : ℚ × TokenBucket :=
  let b1 := b.refill now
  (b1.tokens, b1)

theorem refill_tokens (b : TokenBucket) (now : ℚ) :
    (b.refill now).tokens
      = min b.capacity (b.tokens + (now - b.last_refill_time) * b.refill_rate) := rfl

theorem refill_last (b : TokenBucket) (now : ℚ) :
    (b.refill now).last_refill_time = now := rfl

theorem refill_capacity (b : TokenBucket) (now : ℚ) :
    (b.refill now).capacity = b.capacity := rfl

theorem refill_rate_refill (b : TokenBucket) (now : ℚ) :
    (b.refill now).refill_rate = b.refill_rate := rfl

theorem consume_of_ge (b : TokenBucket) (now n : ℚ)
    (h : (b.refill now).tokens ≥ n) :
    b.consume now n
      = (true, { b.refill now with tokens := (b.refill now).tokens - n }) := by
  unfold consume
  rw [if_pos h]

theorem consume_of_lt (b : TokenBucket) (now n : ℚ)
    (h : ¬ (b.refill now).tokens ≥ n) :
    b.consume now n = (false, b.refill now) := by
  unfold consume
  rw [if_neg h]

theorem get_wait_time_of_ge (b : TokenBucket) (now n : ℚ)
    (h : (b.refill now).tokens ≥ n) :
    b.get_wait_time now n = (0, b.refill now) := by
  unfold get_wait_time
  rw [if_pos h]

theorem get_wait_time_of_lt (b : TokenBucket) (now n : ℚ)
    (h : ¬ (b.refill now).tokens ≥ n) :
    b.get_wait_time now n
      = ((n - (b.refill now).tokens) / b.refill_rate, b.refill now) := by
  unfold get_wait_time
  rw [if_neg h]
  rfl

theorem get_wait_time_snd (b : TokenBucket) (now n : ℚ) :
    (b.get_wait_time now n).2 = b.refill now := by
  by_cases h : (b.refill now).tokens ≥ n
  · rw [get_wait_time_of_ge b now n h]
  · rw [get_wait_time_of_lt b now n h]

/-- The computed wait time is never negative (it is `0` or a positive
deficit divided by the refill rate). -/
theorem get_wait_time_nonneg (b : TokenBucket) (now n : ℚ)
    (hR : 0 < b.refill_rate) :
    0 ≤ (b.get_wait_time now n).1 := by
  by_cases h : (b.refill now).tokens ≥ n
  · rw [get_wait_time_of_ge b now n h]
  · rw [get_wait_time_of_lt b now n h]
    push_neg at h
    have hnum : 0 ≤ n - (b.refill now).tokens := by linarith
    positivity

theorem get_available_tokens_snd (b : TokenBucket) (now : ℚ) :
    (b.get_available_tokens now).2 = b.refill now := rfl

/-- Refilling preserves `0 ≤ tokens ≤ capacity` when time moves forward. -/
theorem refill_inv (b : TokenBucket) (now : ℚ)
    (hC : 0 ≤ b.capacity) (hR : 0 ≤ b.refill_rate)
    (h0 : 0 ≤ b.tokens) (hlr : b.last_refill_time ≤ now) :
    0 ≤ (b.refill now).tokens ∧ (b.refill now).tokens ≤ b.capacity := by
  rw [refill_tokens]
  constructor
  · have hadd : 0 ≤ (now - b.last_refill_time) * b.refill_rate :=
      mul_nonneg (by linarith) hR
    exact le_min hC (by linarith)
  · exact min_le_left _ _

end TokenBucket

/-- One operation observed on a `TokenBucket` (the bucket's public
surface in rate_limiter.py). -/
inductive BucketOp
  | consume (n : ℚ)
  | getWaitTime (n : ℚ)
  | getAvailableTokens
deriving DecidableEq

/-- State of the bucket after running one operation at time `t`. -/
def applyOp (b : TokenBucket) (t : ℚ) : BucketOp → TokenBucket
  | BucketOp.consume n => (b.consume t n).2
  | BucketOp.getWaitTime n => (b.get_wait_time t n).2
  | BucketOp.getAvailableTokens => (b.get_available_tokens t).2

/-- Run a list of timestamped bucket operations in order. -/
def runOps (b : TokenBucket) : List (ℚ × BucketOp) → TokenBucket
  | [] => b
  | (t, op) :: rest => runOps (applyOp b t op) rest

/-- The observation times are non-decreasing, starting at or after `t0`. -/
def timesMono (t0 : ℚ) : List (ℚ × BucketOp) → Bool
  | [] => true
  | (t, _) :: rest => decide (t0 ≤ t) && timesMono t rest

/-- The requested amount of an operation is non-negative. -/
def opNonneg : BucketOp → Bool
  | BucketOp.consume n => decide (0 ≤ n)
  | BucketOp.getWaitTime n => decide (0 ≤ n)
  | BucketOp.getAvailableTokens => true

/-- Any one bucket operation preserves `0 ≤ tokens ≤ capacity`, stamps the
refill time, and leaves capacity and rate unchanged. -/
theorem applyOp_inv (b : TokenBucket) (t : ℚ) (op : BucketOp)
    (hC : 0 ≤ b.capacity) (hR : 0 ≤ b.refill_rate)
    (h0 : 0 ≤ b.tokens) (hlr : b.last_refill_time ≤ t)
    (hop : opNonneg op = true) :
    0 ≤ (applyOp b t op).tokens ∧ (applyOp b t op).tokens ≤ b.capacity ∧
    (applyOp b t op).last_refill_time = t ∧
    (applyOp b t op).capacity = b.capacity ∧
    (applyOp b t op).refill_rate = b.refill_rate := by
  have href := TokenBucket.refill_inv b t hC hR h0 hlr
  cases op with
  | consume n =>
    simp only [opNonneg, decide_eq_true_eq] at hop
    by_cases h : (b.refill t).tokens ≥ n
    · simp only [applyOp, TokenBucket.consume_of_ge b t n h]
      refine ⟨by simpa using by linarith, by simpa using by linarith [href.2], ?_, ?_, ?_⟩
      · simpa using TokenBucket.refill_last b t
      · simpa using TokenBucket.refill_capacity b t
      · simpa using TokenBucket.refill_rate_refill b t
    · simp only [applyOp, TokenBucket.consume_of_lt b t n h]
      exact ⟨href.1, href.2, TokenBucket.refill_last b t,
        TokenBucket.refill_capacity b t, TokenBucket.refill_rate_refill b t⟩
  | getWaitTime n =>
    simp only [applyOp, TokenBucket.get_wait_time_snd]
    exact ⟨href.1, href.2, TokenBucket.refill_last b t,
      TokenBucket.refill_capacity b t, TokenBucket.refill_rate_refill b t⟩
  | getAvailableTokens =>
    simp only [applyOp, TokenBucket.get_available_tokens_snd]
    exact ⟨href.1, href.2, TokenBucket.refill_last b t,
      TokenBucket.refill_capacity b t, TokenBucket.refill_rate_refill b t⟩

/-- Running a chronological trace of non-negative operations preserves
`0 ≤ tokens ≤ capacity`. -/
theorem runOps_inv (l : List (ℚ × BucketOp)) (b : TokenBucket) (t0 : ℚ)
    (hC : 0 ≤ b.capacity) (hR : 0 ≤ b.refill_rate)
    (h0 : 0 ≤ b.tokens) (h1 : b.tokens ≤ b.capacity)
    (hlr : b.last_refill_time ≤ t0) (hmono : timesMono t0 l = true)
    (hnn : (l.all fun p => opNonneg p.2) = true) :
    0 ≤ (runOps b l).tokens ∧ (runOps b l).tokens ≤ b.capacity := by
  induction l generalizing b t0 with
  | nil => exact ⟨h0, h1⟩
  | cons hd rest ih =>
    obtain ⟨t, op⟩ := hd
    simp only [timesMono, Bool.and_eq_true, decide_eq_true_eq] at hmono
    simp only [List.all_cons, Bool.and_eq_true] at hnn
    have hstep := applyOp_inv b t op hC hR h0 (le_trans hlr hmono.1) hnn.1
    have hrec := ih (applyOp b t op) t
      (by rw [hstep.2.2.2.1]; exact hC)
      (by rw [hstep.2.2.2.2]; exact hR)
      hstep.1
      (by rw [hstep.2.2.2.1]; exact hstep.2.1)
      (le_of_eq hstep.2.2.1) hmono.2 hnn.2
    rw [runOps]
    exact ⟨hrec.1, by rw [← hstep.2.2.2.1]; exact hrec.2⟩

theorem timesMono_take (l : List (ℚ × BucketOp)) (t0 : ℚ) (k : ℕ)
    (h : timesMono t0 l = true) : timesMono t0 (l.take k) = true := by
  induction l generalizing t0 k with
  | nil => simp [timesMono]
  | cons hd rest ih =>
    obtain ⟨t, op⟩ := hd
    cases k with
    | zero => simp [timesMono]
    | succ k =>
      simp only [timesMono, Bool.and_eq_true] at h
      simp only [List.take_succ_cons, timesMono, Bool.and_eq_true]
      exact ⟨h.1, ih t k h.2⟩

theorem allNonneg_take (l : List (ℚ × BucketOp)) (k : ℕ)
    (h : (l.all fun p => opNonneg p.2) = true) :
    ((l.take k).all fun p => opNonneg p.2) = true := by
  rw [List.all_eq_true] at h ⊢
  intro x hx
  exact h x (List.take_subset k l hx)

/-- **C3** — TokenBucket invariant: for every bucket created with capacity
`C ≥ 0` and refill rate `R > 0`, and every chronological sequence of
`consume` / `get_wait_time` / `get_available_tokens` operations with
non-negative requested amounts, `0 ≤ tokens ≤ C` holds at every
observation point (i.e. after every prefix of the trace); and refilling is
lazy, performed on access as
`tokens = min(capacity, tokens + elapsed * refill_rate)` with
`last_refill_time` updated to the access time. -/
theorem C3_token_bucket_invariant (C R t0 : ℚ) (l : List (ℚ × BucketOp))
    (k : ℕ) (b : TokenBucket) (now : ℚ)
    (hC : 0 ≤ C) (hR : 0 < R)
    (hmono : timesMono t0 l = true)
    (hnn : (l.all fun p => opNonneg p.2) = true) :
    (0 ≤ (runOps (TokenBucket.init C R t0) (l.take k)).tokens ∧
      (runOps (TokenBucket.init C R t0) (l.take k)).tokens ≤ C) ∧
    ((b.refill now).tokens
        = min b.capacity (b.tokens + (now - b.last_refill_time) * b.refill_rate) ∧
      (b.refill now).last_refill_time = now) := by
  refine ⟨?_, rfl, rfl⟩
  exact runOps_inv (l.take k) (TokenBucket.init C R t0) t0 hC (le_of_lt hR)
    hC le_rfl le_rfl (timesMono_take l t0 k hmono) (allNonneg_take l k hnn)

/-- Witness for C3 at a concrete bucket (capacity 10, rate 1) and a
concrete three-operation trace. -/
theorem C3_token_bucket_invariant_witness :
    (0 ≤ (10 : ℚ) ∧ 0 < (1 : ℚ) ∧
      timesMono 0 [(0, BucketOp.consume 3), (1, BucketOp.getWaitTime 5),
        (2, BucketOp.getAvailableTokens)] = true ∧
      ([(0, BucketOp.consume 3), ((1 : ℚ), BucketOp.getWaitTime 5),
        (2, BucketOp.getAvailableTokens)].all fun p => opNonneg p.2) = true) ∧
    ((0 ≤ (runOps (TokenBucket.init 10 1 0)
        ([(0, BucketOp.consume 3), (1, BucketOp.getWaitTime 5),
          (2, BucketOp.getAvailableTokens)].take 3)).tokens ∧
      (runOps (TokenBucket.init 10 1 0)
        ([(0, BucketOp.consume 3), (1, BucketOp.getWaitTime 5),
          (2, BucketOp.getAvailableTokens)].take 3)).tokens ≤ 10) ∧
    (((TokenBucket.init 10 1 0).refill 2).tokens
        = min (TokenBucket.init 10 1 0).capacity
            ((TokenBucket.init 10 1 0).tokens
              + (2 - (TokenBucket.init 10 1 0).last_refill_time)
                  * (TokenBucket.init 10 1 0).refill_rate) ∧
      ((TokenBucket.init 10 1 0).refill 2).last_refill_time = 2)) :=
  ⟨⟨by decide, by decide, by decide, by decide⟩,
    C3_token_bucket_invariant 10 1 0
      [(0, BucketOp.consume 3), (1, BucketOp.getWaitTime 5),
        (2, BucketOp.getAvailableTokens)] 3 (TokenBucket.init 10 1 0) 2
      (by decide) (by decide) (by decide) (by decide)⟩

/-- **C6** — `TokenBucket.consume` (the spec's `tryConsume`): after the
lazy refill, if at least `n` tokens are present the call reports success
and subtracts exactly `n`; otherwise it reports failure and leaves the
token count unchanged beyond the refill itself.  Capacity and rate are
untouched and the refill stamp is `now` in both cases. -/
theorem C6_try_consume (b : TokenBucket) (now n : ℚ) :
    (b.consume now n).1 = decide ((b.refill now).tokens ≥ n) ∧
    (b.consume now n).2.tokens
      = (if (b.refill now).tokens ≥ n then (b.refill now).tokens - n
          else (b.refill now).tokens) ∧
    (b.consume now n).2.capacity = b.capacity ∧
    (b.consume now n).2.refill_rate = b.refill_rate ∧
    (b.consume now n).2.last_refill_time = now := by
  by_cases h : (b.refill now).tokens ≥ n
  · rw [TokenBucket.consume_of_ge b now n h]
    simp only [h, decide_eq_true_eq, if_pos h]
    exact ⟨by simp, rfl, TokenBucket.refill_capacity b now,
      TokenBucket.refill_rate_refill b now, TokenBucket.refill_last b now⟩
  · rw [TokenBucket.consume_of_lt b now n h]
    simp only [h, if_neg h, decide_eq_false h]
    exact ⟨rfl, rfl, TokenBucket.refill_capacity b now,
      TokenBucket.refill_rate_refill b now, TokenBucket.refill_last b now⟩

/-- `RateLimitConfig` (rate_limiter.py): RPM / TPM limits and concurrency
bound.  The derived refill rates are per-minute budgets divided by 60. -/
structure RateLimitConfig where
  requests_per_minute : ℕ := 500
  tokens_per_minute : ℕ := 30000
  max_concurrent_requests : ℕ := 10
deriving DecidableEq

/-- `RateLimitConfig.refill_rate_rpm = requests_per_minute / 60.0` -/
def RateLimitConfig.refill_rate_rpm (c : RateLimitConfig) : ℚ :=
  (c.requests_per_minute : ℚ) / 60

/-- `RateLimitConfig.refill_rate_tpm = tokens_per_minute / 60.0` -/
def RateLimitConfig.refill_rate_tpm (c : RateLimitConfig) : ℚ :=
  (c.tokens_per_minute : ℚ) / 60

/-- `RateLimiter`: two token buckets, the concurrency semaphore (modelled
by its count of free slots), and the statistics counters. -/
structure RateLimiter where
  name : String
  config : RateLimitConfig
  rpm_bucket : TokenBucket
  tpm_bucket : TokenBucket
  semaphore : ℕ
  total_requests : ℕ
  total_tokens_consumed : ℤ
  total_wait_time : ℚ
  requests_throttled : ℕ
deriving DecidableEq

/-- `RateLimiter.__init__`: both buckets start full, all counters zero,
all `max_concurrent_requests` semaphore slots free. -/
def RateLimiter.init (name : String) (config : RateLimitConfig) (now : ℚ) :
    RateLimiter :=
  { name := name, config := config,
    rpm_bucket := TokenBucket.init (config.requests_per_minute : ℚ)
      config.refill_rate_rpm now,
    tpm_bucket := TokenBucket.init (config.tokens_per_minute : ℚ)
      config.refill_rate_tpm now,
    semaphore := config.max_concurrent_requests,
    total_requests := 0, total_tokens_consumed := 0,
    total_wait_time := 0, requests_throttled := 0 }

/-- The wait computed in `_wait_for_capacity`:
`max(rpm_bucket.get_wait_time(1.0), tpm_bucket.get_wait_time(estimated_tokens))`. -/
def RateLimiter.waitTime (rl : RateLimiter) (now : ℚ) (estimated_tokens : ℤ) : ℚ :=
  max (rl.rpm_bucket.get_wait_time now 1).1
    (rl.tpm_bucket.get_wait_time now (estimated_tokens : ℚ)).1

/-- The clock value at which `_wait_for_capacity` reaches its consume
lines: after `asyncio.sleep(wait_time)` when it was throttled, immediately
otherwise.  The sleep advances the clock by exactly `wait_time`. -/
def RateLimiter.consumeTime (rl : RateLimiter) (now : ℚ) (estimated_tokens : ℤ) : ℚ :=
  if 0 < rl.waitTime now estimated_tokens
  then now + rl.waitTime now estimated_tokens else now

/-- `RateLimiter._wait_for_capacity` (the body under `self._lock`): compute
the two bucket waits, take the max; if positive, bump the throttle
statistics and sleep for exactly that long; then call `consume` on both
buckets (their results are discarded) and bump the totals.
The two `get_available_tokens` reads inside the warning log happen at the
unchanged instant and do not alter the reachable bucket state, so they are
omitted here. -/
def RateLimiter.wait_for_capacity (rl : RateLimiter) (now : ℚ)
    (estimated_tokens : ℤ) : RateLimiter :=
  let wait_time := rl.waitTime now estimated_tokens
  let now2 := rl.consumeTime now estimated_tokens
  let throttled := if 0 < wait_time then rl.requests_throttled + 1
    else rl.requests_throttled
  let waited := if 0 < wait_time then rl.total_wait_time + wait_time
    else rl.total_wait_time
  let rpm2 := ((rl.rpm_bucket.get_wait_time now 1).2.consume now2 1).2
  let tpm2 := ((rl.tpm_bucket.get_wait_time now (estimated_tokens : ℚ)).2.consume
    now2 (estimated_tokens : ℚ)).2
  { rl with
    rpm_bucket := rpm2
    tpm_bucket := tpm2
    total_requests := rl.total_requests + 1
    total_tokens_consumed := rl.total_tokens_consumed + estimated_tokens
    total_wait_time := waited
    requests_throttled := throttled }

/-- After waiting at least the bucket's own computed wait time, the
`consume` call on that bucket succeeds and subtracts exactly `n` from the
refilled token count. -/
theorem consume_after_wait (b : TokenBucket) (now wait n : ℚ)
    (hR : 0 < b.refill_rate) (hnc : n ≤ b.capacity)
    (hwait : (b.get_wait_time now n).1 ≤ wait) :
    (((b.get_wait_time now n).2).consume (now + wait) n).1 = true ∧
    (((b.get_wait_time now n).2).consume (now + wait) n).2.tokens
      = min b.capacity ((b.refill now).tokens + wait * b.refill_rate) - n := by
  have hw0 : 0 ≤ wait :=
    le_trans (TokenBucket.get_wait_time_nonneg b now n hR) hwait
  rw [TokenBucket.get_wait_time_snd]
  have hrefill2 : ((b.refill now).refill (now + wait)).tokens
      = min b.capacity ((b.refill now).tokens + wait * b.refill_rate) := by
    rw [TokenBucket.refill_tokens (b.refill now) (now + wait),
      TokenBucket.refill_capacity, TokenBucket.refill_rate_refill,
      TokenBucket.refill_last, add_sub_cancel_left]
  have hge : ((b.refill now).refill (now + wait)).tokens ≥ n := by
    rw [hrefill2]
    rcases le_or_lt n (b.refill now).tokens with hcase | hcase
    · have hmul : 0 ≤ wait * b.refill_rate := mul_nonneg hw0 (le_of_lt hR)
      exact le_min hnc (by linarith)
    · rw [TokenBucket.get_wait_time_of_lt b now n (not_le.mpr hcase)] at hwait
      simp only at hwait
      rw [div_le_iff₀ hR] at hwait
      exact le_min hnc (by linarith)
  rw [TokenBucket.consume_of_ge (b.refill now) (now + wait) n hge]
  refine ⟨rfl, ?_⟩
  simp only
  rw [hrefill2]

/-- At the `_wait_for_capacity` consume instant (after sleeping `W ≥ 0`,
where `W` dominates this bucket's own wait), the consume succeeds and
subtracts exactly `n` from the refilled count. -/
theorem consume_at_time_of_le (b : TokenBucket) (now n W ct : ℚ)
    (hR : 0 < b.refill_rate) (hnc : n ≤ b.capacity)
    (hbw : (b.get_wait_time now n).1 ≤ W) (hW0 : 0 ≤ W)
    (hct : ct = if 0 < W then now + W else now) :
    ((b.get_wait_time now n).2.consume ct n).1 = true ∧
    ((b.get_wait_time now n).2.consume ct n).2.tokens
      = min b.capacity ((b.refill now).tokens + W * b.refill_rate) - n := by
  by_cases h : 0 < W
  · rw [hct, if_pos h]
    exact consume_after_wait b now W n hR hnc hbw
  · rw [hct, if_neg h]
    have hW : W = 0 := le_antisymm (not_lt.mp h) hW0
    subst hW
    have hmain := consume_after_wait b now 0 n hR hnc hbw
    rwa [add_zero] at hmain

/-- **C2** — `RateLimiter._wait_for_capacity` step 1 of `acquire`: the wait
is `max(rpm_bucket.get_wait_time(1), tpm_bucket.get_wait_time(w))`; when it
is positive, `requests_throttled` goes up by one and the wait is added to
`total_wait_time` before sleeping exactly that long; afterwards one token
is consumed from the rate bucket and `w` from the weight bucket (both
consume calls succeed and subtract exactly their amount from the refilled
counts), and `total_requests` rises by 1, `total_tokens_consumed` by `w`.
Hypotheses: positive refill rates, and the requested amounts fit the
bucket capacities (`1 ≤ rpm capacity`, `w ≤ tpm capacity`). -/
theorem C2_wait_for_capacity (rl : RateLimiter) (now : ℚ) (w : ℤ)
    (hRr : 0 < rl.rpm_bucket.refill_rate)
    (hRt : 0 < rl.tpm_bucket.refill_rate)
    (hcr : 1 ≤ rl.rpm_bucket.capacity)
    (hct : (w : ℚ) ≤ rl.tpm_bucket.capacity) :
    (rl.wait_for_capacity now w).requests_throttled
      = rl.requests_throttled + (if 0 < rl.waitTime now w then 1 else 0) ∧
    (rl.wait_for_capacity now w).total_wait_time
      = rl.total_wait_time
          + (if 0 < rl.waitTime now w then rl.waitTime now w else 0) ∧
    (rl.wait_for_capacity now w).total_requests = rl.total_requests + 1 ∧
    (rl.wait_for_capacity now w).total_tokens_consumed
      = rl.total_tokens_consumed + w ∧
    ((rl.rpm_bucket.get_wait_time now 1).2.consume
        (rl.consumeTime now w) 1).1 = true ∧
    (rl.wait_for_capacity now w).rpm_bucket.tokens
      = min rl.rpm_bucket.capacity
          ((rl.rpm_bucket.refill now).tokens
            + rl.waitTime now w * rl.rpm_bucket.refill_rate) - 1 ∧
    ((rl.tpm_bucket.get_wait_time now (w : ℚ)).2.consume
        (rl.consumeTime now w) (w : ℚ)).1 = true ∧
    (rl.wait_for_capacity now w).tpm_bucket.tokens
      = min rl.tpm_bucket.capacity
          ((rl.tpm_bucket.refill now).tokens
            + rl.waitTime now w * rl.tpm_bucket.refill_rate) - (w : ℚ) := by
  have hW0 : 0 ≤ rl.waitTime now w :=
    le_trans (TokenBucket.get_wait_time_nonneg rl.rpm_bucket now 1 hRr)
      (le_max_left _ _)
  have h1 := consume_at_time_of_le rl.rpm_bucket now 1 (rl.waitTime now w)
    (rl.consumeTime now w) hRr hcr (le_max_left _ _) hW0 rfl
  have h2 := consume_at_time_of_le rl.tpm_bucket now (w : ℚ) (rl.waitTime now w)
    (rl.consumeTime now w) hRt hct (le_max_right _ _) hW0 rfl
  refine ⟨?_, ?_, ?_, ?_, h1.1, ?_, h2.1, ?_⟩
  · simp only [RateLimiter.wait_for_capacity]
    split <;> simp
  · simp only [RateLimiter.wait_for_capacity]
    split <;> simp
  · simp only [RateLimiter.wait_for_capacity]
  · simp only [RateLimiter.wait_for_capacity]
  · simp only [RateLimiter.wait_for_capacity]
    exact h1.2
  · simp only [RateLimiter.wait_for_capacity]
    exact h2.2

/-- Witness for C2 on a freshly created default limiter at `now = 0`,
weight 1000 (the buckets are full, so the wait is 0). -/
theorem C2_wait_for_capacity_witness :
    ((RateLimiter.init "openai" ⟨500, 30000, 10⟩ 0).wait_for_capacity 0
        1000).total_requests
      = (RateLimiter.init "openai" ⟨500, 30000, 10⟩ 0).total_requests + 1 ∧
    (((RateLimiter.init "openai" ⟨500, 30000, 10⟩ 0).tpm_bucket.get_wait_time 0
        ((1000 : ℤ) : ℚ)).2.consume
      ((RateLimiter.init "openai" ⟨500, 30000, 10⟩ 0).consumeTime 0 1000)
      ((1000 : ℤ) : ℚ)).1 = true ∧
    (((RateLimiter.init "openai" ⟨500, 30000, 10⟩ 0).rpm_bucket.get_wait_time 0
        1).2.consume
      ((RateLimiter.init "openai" ⟨500, 30000, 10⟩ 0).consumeTime 0 1000)
      1).1 = true :=
  have h := C2_wait_for_capacity (RateLimiter.init "openai" ⟨500, 30000, 10⟩ 0)
    0 1000
    (by norm_num [RateLimiter.init, TokenBucket.init,
      RateLimitConfig.refill_rate_rpm])
    (by norm_num [RateLimiter.init, TokenBucket.init,
      RateLimitConfig.refill_rate_tpm])
    (by norm_num [RateLimiter.init, TokenBucket.init])
    (by norm_num [RateLimiter.init, TokenBucket.init])
  ⟨h.2.2.1, h.2.2.2.2.2.2.1, h.2.2.2.2.1⟩

/-- **C5** — oversized weight is admitted without consuming: when the
estimated weight `w` exceeds the weight bucket's capacity, the weight
`consume` call returns `False` (its result is discarded by the source),
the weight bucket is exactly its refilled self (nothing subtracted), yet
`total_tokens_consumed` still rises by `w` and the request is admitted
(`total_requests` rises by 1). -/
theorem C5_oversized_weight (rl : RateLimiter) (now : ℚ) (w : ℤ)
    (hover : rl.tpm_bucket.capacity < (w : ℚ)) :
    ((rl.tpm_bucket.get_wait_time now (w : ℚ)).2.consume
        (rl.consumeTime now w) (w : ℚ)).1 = false ∧
    (rl.wait_for_capacity now w).tpm_bucket
      = ((rl.tpm_bucket.get_wait_time now (w : ℚ)).2).refill
          (rl.consumeTime now w) ∧
    (rl.wait_for_capacity now w).total_tokens_consumed
      = rl.total_tokens_consumed + w ∧
    (rl.wait_for_capacity now w).total_requests = rl.total_requests + 1 := by
  have hlt : ¬ ((((rl.tpm_bucket.get_wait_time now (w : ℚ)).2).refill
      (rl.consumeTime now w)).tokens ≥ (w : ℚ)) := by
    rw [TokenBucket.get_wait_time_snd, TokenBucket.refill_tokens]
    refine not_le.mpr (lt_of_le_of_lt (min_le_left _ _) ?_)
    rw [TokenBucket.refill_capacity]
    exact hover
  have hcons := TokenBucket.consume_of_lt
    ((rl.tpm_bucket.get_wait_time now (w : ℚ)).2) (rl.consumeTime now w)
    (w : ℚ) hlt
  refine ⟨by rw [hcons], ?_, ?_, ?_⟩
  · simp only [RateLimiter.wait_for_capacity]
    rw [hcons]
  · simp only [RateLimiter.wait_for_capacity]
  · simp only [RateLimiter.wait_for_capacity]

/-- Witness for C5: default limiter (weight capacity 30000), weight
50000 > 30000. -/
theorem C5_oversized_weight_witness :
    (((RateLimiter.init "openai" ⟨500, 30000, 10⟩ 0).tpm_bucket.get_wait_time 0
        ((50000 : ℤ) : ℚ)).2.consume
      ((RateLimiter.init "openai" ⟨500, 30000, 10⟩ 0).consumeTime 0 50000)
      ((50000 : ℤ) : ℚ)).1 = false ∧
    ((RateLimiter.init "openai" ⟨500, 30000, 10⟩ 0).wait_for_capacity 0
        50000).total_tokens_consumed
      = (RateLimiter.init "openai" ⟨500, 30000, 10⟩ 0).total_tokens_consumed
          + 50000 :=
  have h := C5_oversized_weight (RateLimiter.init "openai" ⟨500, 30000, 10⟩ 0)
    0 50000 (by norm_num [RateLimiter.init, TokenBucket.init])
  ⟨h.1, h.2.2.1⟩

/-- `RateLimiterContext.__aenter__`: wait for rate capacity, then take one
slot of the concurrency semaphore (the caller suspends unless a slot is
free; the theorems below assume one is). -/
def RateLimiterContext.aenter (rl : RateLimiter) (now : ℚ)
    (estimated_tokens : ℤ) : RateLimiter :=
  let rl1 := rl.wait_for_capacity now estimated_tokens
  { rl1 with semaphore := rl1.semaphore - 1 }

/-- `RateLimiterContext.__aexit__`: release the concurrency slot and
return `False` (the guarded operation's exception, if any, is never
suppressed); nothing else in the limiter is touched. -/
def RateLimiterContext.aexit (rl : RateLimiter) (_excRaised : Bool) :
    RateLimiter × Bool :=
  ({ rl with semaphore := rl.semaphore + 1 }, false)

/-- **C8** — scope exit of an acquisition: whether or not the guarded
operation raised (`exc`), `__aexit__` releases exactly the one semaphore
slot taken by `__aenter__` (the free-slot count returns to its
pre-acquisition value), leaves both token buckets exactly as the
acquisition left them (no tokens are ever handed back on exit), changes
nothing else, and reports `False` so the exception propagates. -/
theorem C8_scope_exit (rl : RateLimiter) (now : ℚ) (w : ℤ) (exc : Bool)
    (hsem : 1 ≤ rl.semaphore) :
    (RateLimiterContext.aenter rl now w).semaphore = rl.semaphore - 1 ∧
    (RateLimiterContext.aexit (RateLimiterContext.aenter rl now w)
        exc).1.semaphore = rl.semaphore ∧
    (RateLimiterContext.aexit (RateLimiterContext.aenter rl now w) exc).1
      = { RateLimiterContext.aenter rl now w with
          semaphore := (RateLimiterContext.aenter rl now w).semaphore + 1 } ∧
    (RateLimiterContext.aexit (RateLimiterContext.aenter rl now w)
        exc).1.rpm_bucket = (rl.wait_for_capacity now w).rpm_bucket ∧
    (RateLimiterContext.aexit (RateLimiterContext.aenter rl now w)
        exc).1.tpm_bucket = (rl.wait_for_capacity now w).tpm_bucket ∧
    (RateLimiterContext.aexit (RateLimiterContext.aenter rl now w) exc).2
      = false := by
  have hkeep : (rl.wait_for_capacity now w).semaphore = rl.semaphore := by
    simp only [RateLimiter.wait_for_capacity]
  refine ⟨?_, ?_, rfl, rfl, rfl, rfl⟩
  · simp only [RateLimiterContext.aenter, hkeep]
  · simp only [RateLimiterContext.aexit, RateLimiterContext.aenter, hkeep]
    omega

/-- Witness for C8 on a fresh default limiter (10 free slots), with the
guarded operation raising. -/
theorem C8_scope_exit_witness :
    (RateLimiterContext.aexit
      (RateLimiterContext.aenter
        (RateLimiter.init "openai" ⟨500, 30000, 10⟩ 0) 0 1000)
      true).1.semaphore
      = (RateLimiter.init "openai" ⟨500, 30000, 10⟩ 0).semaphore ∧
    (RateLimiterContext.aexit
      (RateLimiterContext.aenter
        (RateLimiter.init "openai" ⟨500, 30000, 10⟩ 0) 0 1000)
      true).2 = false :=
  have h := C8_scope_exit (RateLimiter.init "openai" ⟨500, 30000, 10⟩ 0)
    0 1000 true (by norm_num [RateLimiter.init])
  ⟨h.2.1, h.2.2.2.2.2⟩

/-- `model.lower()`. -/
def lowerStr (s : String) : String := String.mk (s.data.map Char.toLower)

/-- Python's substring membership `needle in haystack`, on char lists. -/
def containsSub (needle : List Char) : List Char → Bool
  | [] => needle.isEmpty
  | c :: rest => needle.isPrefixOf (c :: rest) || containsSub needle rest

/-- The `"mini" in model.lower()` test of `get_rate_limiter`. -/
def modelHasMini (model : String) : Bool :=
  containsSub "mini".data (lowerStr model).data

/-- Lookup in the module-level `_rate_limiters` dict, modelled as an
association list with the most recent insertion in front. -/
def lookupLimiter : List (String × RateLimiter) → String → Option RateLimiter
  | [], _ => none
  | (k, v) :: rest, model =>
      if k = model then some v else lookupLimiter rest model

/-- `get_rate_limiter(model)`: return the registered limiter if `model`
is present; otherwise create one (TPM budget 200000 for a name containing
"mini", 30000 otherwise; RPM 500, concurrency 10), register it, and
return it. -/
def get_rate_limiter (reg : List (String × RateLimiter)) (model : String)
    (now : ℚ) : List (String × RateLimiter) × RateLimiter :=
  match lookupLimiter reg model with
  | some rl => (reg, rl)
  | none =>
      let config : RateLimitConfig :=
        if modelHasMini model then
          { requests_per_minute := 500
            tokens_per_minute := 200000
            max_concurrent_requests := 10 }
        else
          { requests_per_minute := 500
            tokens_per_minute := 30000
            max_concurrent_requests := 10 }
      let rl := RateLimiter.init ("openai_" ++ model) config now
      ((model, rl) :: reg, rl)

/-- **C10** — registry singleton-per-name: on first use of a model name the
registry creates the gate lazily with the name-specific default capacities
(TPM 200000 when the lowercased name contains "mini", else 30000; RPM 500),
registers it under the name, and any subsequent lookup of the same name
returns the identical instance and leaves the registry unchanged. -/
theorem C10_registry_singleton (reg : List (String × RateLimiter))
    (model : String) (now now2 : ℚ)
    (hfirst : lookupLimiter reg model = none) :
    (get_rate_limiter reg model now).2.tpm_bucket.capacity
      = (if modelHasMini model then (200000 : ℚ) else 30000) ∧
    (get_rate_limiter reg model now).2.rpm_bucket.capacity = 500 ∧
    (get_rate_limiter reg model now).2.name = "openai_" ++ model ∧
    (get_rate_limiter reg model now).1
      = (model, (get_rate_limiter reg model now).2) :: reg ∧
    get_rate_limiter ((get_rate_limiter reg model now).1) model now2
      = ((get_rate_limiter reg model now).1,
          (get_rate_limiter reg model now).2) := by
  by_cases hm : modelHasMini model <;>
    simp only [get_rate_limiter, hfirst, hm, if_pos, if_neg, if_true, if_false,
      RateLimiter.init, TokenBucket.init, lookupLimiter] <;>
    norm_num

/-- Witness for C10: first and second lookup of `"gpt-4o-mini"` in an
empty registry. -/
theorem C10_registry_singleton_witness :
    modelHasMini "gpt-4o-mini" = true ∧
    (get_rate_limiter [] "gpt-4o-mini" 0).2.tpm_bucket.capacity
      = (if modelHasMini "gpt-4o-mini" then (200000 : ℚ) else 30000) ∧
    get_rate_limiter ((get_rate_limiter [] "gpt-4o-mini" 0).1) "gpt-4o-mini" 5
      = ((get_rate_limiter [] "gpt-4o-mini" 0).1,
          (get_rate_limiter [] "gpt-4o-mini" 0).2) :=
  have h := C10_registry_singleton [] "gpt-4o-mini" 0 5 rfl
  ⟨by decide, h.1, h.2.2.2.2⟩

/-- `SessionMetadata` (session_manager.py); the `SQLiteSession` handle is
opaque and identified by its key. -/
structure SessionMetadata where
  created_at : ℚ
  last_accessed : ℚ
  access_count : ℕ
deriving DecidableEq

/-- `SessionManager` state.  The `OrderedDict` pool is an association list
whose front is the least-recently-used entry; `closed` records, in order,
the session ids passed to `_close_session`. -/
structure SessionManager where
  max_sessions : ℕ
  session_ttl : ℚ
  sessions : List (String × SessionMetadata)
  sessions_created : ℕ
  sessions_evicted : ℕ
  sessions_expired : ℕ
  cache_hits : ℕ
  cache_misses : ℕ
  closed : List String
deriving DecidableEq

/-- `SessionManager.__init__`: empty pool, zero statistics. -/
def SessionManager.init (max_sessions : ℕ) (session_ttl : ℚ) : SessionManager :=
  { max_sessions := max_sessions, session_ttl := session_ttl, sessions := [],
    sessions_created := 0, sessions_evicted := 0, sessions_expired := 0,
    cache_hits := 0, cache_misses := 0, closed := [] }

/-- Key lookup in the `OrderedDict`. -/
def lookupMeta : List (String × SessionMetadata) → String → Option SessionMetadata
  | [], _ => none
  | (k, v) :: rest, sid => if k = sid then some v else lookupMeta rest sid

/-- Removing a key from the `OrderedDict` (dict keys are unique, so at
most one entry matches). -/
def eraseKey : List (String × SessionMetadata) → String →
    List (String × SessionMetadata)
  | [], _ => []
  | (k, v) :: rest, sid =>
      if k = sid then eraseKey rest sid else (k, v) :: eraseKey rest sid

/-- The pool's key sequence, least-recently-used first. -/
def sessionKeys (l : List (String × SessionMetadata)) : List String :=
  l.map Prod.fst

theorem sessionKeys_append (l1 l2 : List (String × SessionMetadata)) :
    sessionKeys (l1 ++ l2) = sessionKeys l1 ++ sessionKeys l2 :=
  List.map_append _ l1 l2

theorem lookupMeta_none_iff (l : List (String × SessionMetadata))
    (sid : String) : lookupMeta l sid = none ↔ sid ∉ sessionKeys l := by
  induction l with
  | nil => simp [lookupMeta, sessionKeys]
  | cons hd rest ih =>
    obtain ⟨k, v⟩ := hd
    by_cases h : k = sid
    · subst h
      simp [lookupMeta, sessionKeys]
    · simp only [lookupMeta, if_neg h, sessionKeys, List.map_cons,
        List.mem_cons, not_or]
      rw [ih]
      unfold sessionKeys
      constructor
      · exact fun hn => ⟨fun he => h he.symm, hn⟩
      · exact fun hn => hn.2

theorem lookupMeta_append_of_not_mem_left (l1 l2 : List (String × SessionMetadata))
    (sid : String) (h : sid ∉ sessionKeys l1) :
    lookupMeta (l1 ++ l2) sid = lookupMeta l2 sid := by
  induction l1 with
  | nil => rfl
  | cons hd rest ih =>
    obtain ⟨k, v⟩ := hd
    simp only [sessionKeys, List.map_cons, List.mem_cons, not_or] at h
    have hne : ¬ k = sid := fun he => h.1 he.symm
    simp only [List.cons_append, lookupMeta, if_neg hne]
    exact ih (by simpa [sessionKeys] using h.2)

theorem eraseKey_of_not_mem (l : List (String × SessionMetadata))
    (sid : String) (h : sid ∉ sessionKeys l) : eraseKey l sid = l := by
  induction l with
  | nil => rfl
  | cons hd rest ih =>
    obtain ⟨k, v⟩ := hd
    simp only [sessionKeys, List.map_cons, List.mem_cons, not_or] at h
    have hne : ¬ k = sid := fun he => h.1 he.symm
    simp only [eraseKey, if_neg hne]
    rw [ih (by simpa [sessionKeys] using h.2)]

theorem eraseKey_append (l1 l2 : List (String × SessionMetadata))
    (sid : String) :
    eraseKey (l1 ++ l2) sid = eraseKey l1 sid ++ eraseKey l2 sid := by
  induction l1 with
  | nil => rfl
  | cons hd rest ih =>
    obtain ⟨k, v⟩ := hd
    by_cases h : k = sid
    · simp [eraseKey, h, ih]
    · simp [eraseKey, h, ih]

theorem length_eraseKey_le (l : List (String × SessionMetadata))
    (sid : String) : (eraseKey l sid).length ≤ l.length := by
  induction l with
  | nil => simp [eraseKey]
  | cons hd rest ih =>
    obtain ⟨k, v⟩ := hd
    by_cases h : k = sid
    · simp only [eraseKey, if_pos h, List.length_cons]
      omega
    · simp only [eraseKey, if_neg h, List.length_cons]
      omega

theorem length_eraseKey_lt (l : List (String × SessionMetadata))
    (sid : String) (h : sid ∈ sessionKeys l) :
    (eraseKey l sid).length < l.length := by
  induction l with
  | nil => simp [sessionKeys] at h
  | cons hd rest ih =>
    obtain ⟨k, v⟩ := hd
    by_cases hk : k = sid
    · simp only [eraseKey, if_pos hk, List.length_cons]
      have := length_eraseKey_le rest sid
      omega
    · simp only [sessionKeys, List.map_cons, List.mem_cons] at h
      rcases h with h | h
      · exact absurd h.symm hk
      · simp only [eraseKey, if_neg hk, List.length_cons]
        have := ih h
        omega

/-- `SessionManager._evict_oldest_session`: pop the front (least recently
used) entry, close its handle, bump `sessions_evicted`; no-op on an empty
pool. -/
def SessionManager.evict_oldest (m : SessionManager) : SessionManager :=
  match m.sessions with
  | [] => m
  | (sid, _) :: rest =>
      { m with
        sessions := rest
        sessions_evicted := m.sessions_evicted + 1
        closed := m.closed ++ [sid] }

/-- `SessionManager.get_session` (body under `self._lock`): on a hit,
stamp the access (`update_access`) and move the entry to the
most-recently-used end; on a miss, evict the LRU entry when at capacity,
then insert a fresh entry at the most-recently-used end. -/
def SessionManager.get_session (m : SessionManager) (sid : String)
    (now : ℚ) : SessionManager :=
  match lookupMeta m.sessions sid with
  | some md =>
      let md2 := { md with last_accessed := now,
                           access_count := md.access_count + 1 }
      { m with
        sessions := eraseKey m.sessions sid ++ [(sid, md2)]
        cache_hits := m.cache_hits + 1 }
  | none =>
      let m1 := { m with cache_misses := m.cache_misses + 1 }
      let m2 := if m1.max_sessions ≤ m1.sessions.length
        then m1.evict_oldest else m1
      { m2 with
        sessions := m2.sessions ++ [(sid, ⟨now, now, 1⟩)]
        sessions_created := m2.sessions_created + 1 }

/-- `SessionManager.remove_session`: pop and close the entry if present. -/
def SessionManager.remove_session (m : SessionManager) (sid : String) :
    SessionManager :=
  match lookupMeta m.sessions sid with
  | some _ =>
      { m with
        sessions := eraseKey m.sessions sid
        closed := m.closed ++ [sid] }
  | none => m

/-- An entry is expired at `now` when `now - last_accessed > session_ttl`. -/
def expiredPred (ttl now : ℚ) (p : String × SessionMetadata) : Bool :=
  decide (ttl < now - p.2.last_accessed)

/-- One step of the removal loop of `cleanup_expired_sessions`:
`self._sessions.pop(session_id)`, close, bump `sessions_expired`. -/
def SessionManager.popExpired (m : SessionManager) (sid : String) :
    SessionManager :=
  match lookupMeta m.sessions sid with
  | some _ =>
      { m with
        sessions := eraseKey m.sessions sid
        sessions_expired := m.sessions_expired + 1
        closed := m.closed ++ [sid] }
  | none => m

/-- `SessionManager.cleanup_expired_sessions` (body under `self._lock`):
collect the ids whose age exceeds the TTL, pop and close each, and return
how many there were. -/
def SessionManager.cleanup_expired_sessions (m : SessionManager) (now : ℚ) :
    SessionManager × ℕ :=
  let expired :=
    (m.sessions.filter (expiredPred m.session_ttl now)).map Prod.fst
  (expired.foldl SessionManager.popExpired m, expired.length)

/-- `SessionManager.shutdown` (after cancelling the sweep loop): close
every entry, then clear the pool. -/
def SessionManager.shutdown (m : SessionManager) : SessionManager :=
  { m with
    sessions := []
    closed := m.closed ++ sessionKeys m.sessions }

theorem get_session_hit (m : SessionManager) (sid : String) (now : ℚ)
    (md : SessionMetadata) (h : lookupMeta m.sessions sid = some md) :
    m.get_session sid now
      = { m with
          sessions := eraseKey m.sessions sid
            ++ [(sid, { md with last_accessed := now,
                                access_count := md.access_count + 1 })]
          cache_hits := m.cache_hits + 1 } := by
  unfold SessionManager.get_session
  rw [h]

theorem get_session_miss (m : SessionManager) (sid : String) (now : ℚ)
    (h : lookupMeta m.sessions sid = none) :
    m.get_session sid now
      = (let m1 : SessionManager := { m with cache_misses := m.cache_misses + 1 }
         let m2 := if m1.max_sessions ≤ m1.sessions.length
           then m1.evict_oldest else m1
         { m2 with
           sessions := m2.sessions ++ [(sid, ⟨now, now, 1⟩)]
           sessions_created := m2.sessions_created + 1 }) := by
  unfold SessionManager.get_session
  rw [h]

theorem evict_oldest_length (m : SessionManager) (h : m.sessions ≠ []) :
    (m.evict_oldest).sessions.length = m.sessions.length - 1 := by
  unfold SessionManager.evict_oldest
  cases hs : m.sessions with
  | nil => exact absurd hs h
  | cons hd tl =>
    obtain ⟨k, v⟩ := hd
    simp

theorem get_session_length_le (m : SessionManager) (sid : String) (now : ℚ)
    (hM : 1 ≤ m.max_sessions)
    (hlen : m.sessions.length ≤ m.max_sessions) :
    (m.get_session sid now).sessions.length ≤ m.max_sessions := by
  cases hl : lookupMeta m.sessions sid with
  | some md =>
    rw [get_session_hit m sid now md hl]
    have hmem : sid ∈ sessionKeys m.sessions := by
      by_contra hmem
      rw [(lookupMeta_none_iff _ _).mpr hmem] at hl
      cases hl
    have herase := length_eraseKey_lt m.sessions sid hmem
    simp only [List.length_append, List.length_cons, List.length_nil]
    omega
  | none =>
    rw [get_session_miss m sid now hl]
    dsimp only
    by_cases hc : m.max_sessions ≤ m.sessions.length
    · rw [if_pos hc]
      have hne : (SessionManager.sessions
          { m with cache_misses := m.cache_misses + 1 }) ≠ [] := by
        dsimp only
        intro hnil
        rw [hnil] at hc
        simp only [List.length_nil] at hc
        omega
      have hev := evict_oldest_length
        { m with cache_misses := m.cache_misses + 1 } hne
      simp only [List.length_append, List.length_cons, List.length_nil, hev]
      omega
    · rw [if_neg hc]
      simp only [List.length_append, List.length_cons, List.length_nil]
      omega

theorem remove_session_length_le (m : SessionManager) (sid : String)
    (hlen : m.sessions.length ≤ m.max_sessions) :
    (m.remove_session sid).sessions.length ≤ m.max_sessions := by
  unfold SessionManager.remove_session
  cases hl : lookupMeta m.sessions sid with
  | some md =>
    have := length_eraseKey_le m.sessions sid
    simp only []
    omega
  | none => exact hlen

theorem popExpired_length_le (m : SessionManager) (sid : String) :
    (m.popExpired sid).sessions.length ≤ m.sessions.length := by
  unfold SessionManager.popExpired
  cases hl : lookupMeta m.sessions sid with
  | some md => exact length_eraseKey_le m.sessions sid
  | none => exact le_refl _

theorem foldl_popExpired_length_le (ids : List String) (m : SessionManager) :
    (ids.foldl SessionManager.popExpired m).sessions.length
      ≤ m.sessions.length := by
  induction ids generalizing m with
  | nil => exact le_refl _
  | cons i rest ih =>
    exact le_trans (ih (m.popExpired i)) (popExpired_length_le m i)

theorem cleanup_length_le (m : SessionManager) (now : ℚ)
    (hlen : m.sessions.length ≤ m.max_sessions) :
    ((m.cleanup_expired_sessions now).1).sessions.length ≤ m.max_sessions := by
  unfold SessionManager.cleanup_expired_sessions
  exact le_trans (foldl_popExpired_length_le _ m) hlen

theorem sessionKeys_map_fresh (ks : List String) (now : ℚ) :
    sessionKeys (ks.map (fun k => (k, (⟨now, now, 1⟩ : SessionMetadata))))
      = ks := by
  induction ks with
  | nil => rfl
  | cons k rest ih =>
    simp only [List.map_cons, sessionKeys] at ih ⊢
    rw [ih]

/-- Filling a pool that has room with fresh distinct keys appends them in
order: no eviction, no closing, one creation and one miss per key. -/
theorem fill_fresh (ks : List String) (m : SessionManager) (now : ℚ)
    (hnodup : (sessionKeys m.sessions ++ ks).Nodup)
    (hlen : m.sessions.length + ks.length ≤ m.max_sessions) :
    (ks.foldl (fun a k => a.get_session k now) m).sessions
      = m.sessions
        ++ ks.map (fun k => (k, (⟨now, now, 1⟩ : SessionMetadata))) ∧
    (ks.foldl (fun a k => a.get_session k now) m).max_sessions
      = m.max_sessions ∧
    (ks.foldl (fun a k => a.get_session k now) m).sessions_evicted
      = m.sessions_evicted ∧
    (ks.foldl (fun a k => a.get_session k now) m).closed = m.closed ∧
    (ks.foldl (fun a k => a.get_session k now) m).sessions_created
      = m.sessions_created + ks.length := by
  induction ks generalizing m with
  | nil => simp
  | cons k rest ih =>
    have hnd := hnodup
    rw [List.nodup_append] at hnd
    have hk_not : k ∉ sessionKeys m.sessions := by
      intro hk
      exact hnd.2.2 hk (List.mem_cons_self k rest)
    have hl : lookupMeta m.sessions k = none :=
      (lookupMeta_none_iff _ _).mpr hk_not
    have hc : ¬ m.max_sessions ≤ m.sessions.length := by
      simp only [List.length_cons] at hlen
      omega
    have hstep : m.get_session k now
        = { m with
            sessions := m.sessions ++ [(k, ⟨now, now, 1⟩)]
            sessions_created := m.sessions_created + 1
            cache_misses := m.cache_misses + 1 } := by
      rw [get_session_miss m k now hl]
      dsimp only
      rw [if_neg hc]
    rw [List.foldl_cons, hstep]
    have hkeys : sessionKeys
        (m.sessions ++ [(k, (⟨now, now, 1⟩ : SessionMetadata))]) ++ rest
        = sessionKeys m.sessions ++ (k :: rest) := by
      rw [sessionKeys_append, List.append_assoc]
      rfl
    have hrec := ih
      { m with
        sessions := m.sessions ++ [(k, ⟨now, now, 1⟩)]
        sessions_created := m.sessions_created + 1
        cache_misses := m.cache_misses + 1 }
      (by
        dsimp only
        rw [hkeys]
        exact hnodup)
      (by
        dsimp only
        simp only [List.length_append, List.length_cons, List.length_nil]
        simp only [List.length_cons] at hlen
        omega)
    refine ⟨?_, ?_, ?_, ?_, ?_⟩
    · rw [hrec.1]
      dsimp only
      rw [List.append_assoc]
      rfl
    · rw [hrec.2.1]
    · rw [hrec.2.2.1]
    · rw [hrec.2.2.2.1]
    · rw [hrec.2.2.2.2]
      dsimp only
      simp only [List.length_cons]
      omega

theorem evict_oldest_eq (m : SessionManager) (k : String)
    (v : SessionMetadata) (rest : List (String × SessionMetadata))
    (h : m.sessions = (k, v) :: rest) :
    m.evict_oldest
      = { m with
          sessions := rest
          sessions_evicted := m.sessions_evicted + 1
          closed := m.closed ++ [k] } := by
  unfold SessionManager.evict_oldest
  rw [h]

/-- **C4** — ResourcePool bounded size with LRU eviction: with
`1 ≤ max_sessions` and the pool within bounds, any single
`get_session` / `remove_session` / `cleanup_expired_sessions` leaves at
most `max_sessions` entries; and creating `M + 1` distinct keys in a fresh
pool of capacity `M ≥ 1` evicts exactly one entry — the least recently
used (the first key) — closes exactly its handle, sets
`sessions_evicted = 1`, and leaves the pool at exactly `M` entries holding
the other `M` keys in recency order. -/
theorem C4_bounded_size_lru (m : SessionManager) (sid : String) (now : ℚ)
    (M : ℕ) (ttl : ℚ) (ks : List String) (klast : String)
    (hM : 1 ≤ m.max_sessions)
    (hlen : m.sessions.length ≤ m.max_sessions)
    (hM1 : 1 ≤ M)
    (hkslen : ks.length = M)
    (hnodup : (ks ++ [klast]).Nodup) :
    (m.get_session sid now).sessions.length ≤ m.max_sessions ∧
    (m.remove_session sid).sessions.length ≤ m.max_sessions ∧
    ((m.cleanup_expired_sessions now).1).sessions.length ≤ m.max_sessions ∧
    ((ks ++ [klast]).foldl (fun a k => a.get_session k now)
        (SessionManager.init M ttl)).sessions.length = M ∧
    sessionKeys ((ks ++ [klast]).foldl (fun a k => a.get_session k now)
        (SessionManager.init M ttl)).sessions = ks.tail ++ [klast] ∧
    ((ks ++ [klast]).foldl (fun a k => a.get_session k now)
        (SessionManager.init M ttl)).sessions_evicted = 1 ∧
    ((ks ++ [klast]).foldl (fun a k => a.get_session k now)
        (SessionManager.init M ttl)).closed = ks.take 1 := by
  refine ⟨get_session_length_le m sid now hM hlen,
    remove_session_length_le m sid hlen,
    cleanup_length_le m now hlen, ?_⟩
  have hfill := fill_fresh ks (SessionManager.init M ttl) now
    (by
      dsimp only [SessionManager.init]
      simp only [sessionKeys, List.map_nil, List.nil_append]
      exact (List.nodup_append.mp hnodup).1)
    (by
      dsimp only [SessionManager.init]
      simp only [List.length_nil, Nat.zero_add, hkslen, le_refl])
  obtain ⟨hs1, hm1, hev1, hcl1, _hcr1⟩ := hfill
  have hsfull : (ks.foldl (fun a k => a.get_session k now)
      (SessionManager.init M ttl)).sessions
      = ks.map (fun k => (k, (⟨now, now, 1⟩ : SessionMetadata))) := by
    rw [hs1]
    dsimp only [SessionManager.init]
    exact List.nil_append _
  have hMfull : (ks.foldl (fun a k => a.get_session k now)
      (SessionManager.init M ttl)).max_sessions = M := by
    rw [hm1]
    rfl
  have hevfull : (ks.foldl (fun a k => a.get_session k now)
      (SessionManager.init M ttl)).sessions_evicted = 0 := by
    rw [hev1]
    rfl
  have hclfull : (ks.foldl (fun a k => a.get_session k now)
      (SessionManager.init M ttl)).closed = [] := by
    rw [hcl1]
    rfl
  have hkl : klast ∉ ks := fun hin =>
    (List.nodup_append.mp hnodup).2.2 hin (List.mem_singleton.mpr rfl)
  have hkeysfull : sessionKeys (ks.foldl (fun a k => a.get_session k now)
      (SessionManager.init M ttl)).sessions = ks := by
    rw [hsfull, sessionKeys_map_fresh]
  have hlast_none : lookupMeta (ks.foldl (fun a k => a.get_session k now)
      (SessionManager.init M ttl)).sessions klast = none :=
    (lookupMeta_none_iff _ _).mpr (by rw [hkeysfull]; exact hkl)
  have hlenfull : (ks.foldl (fun a k => a.get_session k now)
      (SessionManager.init M ttl)).sessions.length = M := by
    rw [hsfull, List.length_map, hkslen]
  have hsplit : (ks ++ [klast]).foldl (fun a k => a.get_session k now)
      (SessionManager.init M ttl)
      = (ks.foldl (fun a k => a.get_session k now)
          (SessionManager.init M ttl)).get_session klast now := by
    rw [List.foldl_append, List.foldl_cons, List.foldl_nil]
  rw [hsplit, get_session_miss _ klast now hlast_none]
  dsimp only
  rw [if_pos (by rw [hMfull, hlenfull])]
  cases ks with
  | nil =>
    exfalso
    simp only [List.length_nil] at hkslen
    omega
  | cons k0 krest =>
    have hev_eq := evict_oldest_eq
      { (k0 :: krest).foldl (fun a k => a.get_session k now)
          (SessionManager.init M ttl) with
        cache_misses := ((k0 :: krest).foldl (fun a k => a.get_session k now)
          (SessionManager.init M ttl)).cache_misses + 1 }
      k0 (⟨now, now, 1⟩ : SessionMetadata)
      (krest.map (fun k => (k, (⟨now, now, 1⟩ : SessionMetadata))))
      (by
        dsimp only
        rw [hsfull]
        simp only [List.map_cons])
    rw [hev_eq]
    dsimp only
    simp only [List.length_cons] at hkslen
    refine ⟨?_, ?_, ?_, ?_⟩
    · simp only [List.length_append, List.length_map, List.length_cons,
        List.length_nil]
      omega
    · rw [sessionKeys_append, sessionKeys_map_fresh]
      simp only [sessionKeys, List.map_cons, List.map_nil, List.tail_cons]
    · rw [hevfull]
    · rw [hclfull]
      simp only [List.nil_append, List.take_succ_cons, List.take_zero]

/-- Witness for C4: a pool of one entry under capacity 2, and the
scenario `M = 2` with keys `["a", "b", "c"]` (so `"a"` is evicted). -/
theorem C4_bounded_size_lru_witness :
    (((SessionManager.init 2 10).get_session "a" 0).get_session "b"
        1).sessions.length ≤ 2 ∧
    ((["a", "b"] ++ ["c"]).foldl (fun a k => a.get_session k 0)
        (SessionManager.init 2 10)).sessions_evicted = 1 ∧
    ((["a", "b"] ++ ["c"]).foldl (fun a k => a.get_session k 0)
        (SessionManager.init 2 10)).closed = ["a", "b"].take 1 ∧
    ((["a", "b"] ++ ["c"]).foldl (fun a k => a.get_session k 0)
        (SessionManager.init 2 10)).sessions.length = 2 :=
  have h := C4_bounded_size_lru
    (((SessionManager.init 2 10).get_session "a" 0)) "b" 1 2 10
    ["a", "b"] "c" (by decide) (by decide) (by decide) (by decide) (by decide)
  have h2 := C4_bounded_size_lru
    (SessionManager.init 2 10) "z" 0 2 10
    ["a", "b"] "c" (by decide) (by decide) (by decide) (by decide) (by decide)
  ⟨h.1, h2.2.2.2.2.2.1, h2.2.2.2.2.2.2, h2.2.2.2.1⟩

theorem popExpired_some (m : SessionManager) (sid : String)
    (md : SessionMetadata) (h : lookupMeta m.sessions sid = some md) :
    m.popExpired sid
      = { m with
          sessions := eraseKey m.sessions sid
          sessions_expired := m.sessions_expired + 1
          closed := m.closed ++ [sid] } := by
  unfold SessionManager.popExpired
  rw [h]

/-- Popping, one by one, exactly the ids collected from the `l2` part of
the pool removes exactly the entries satisfying `p`, counting and closing
each once, and leaves everything else untouched. -/
theorem popExpired_fold (p : (String × SessionMetadata) → Bool)
    (l2 l1 : List (String × SessionMetadata)) (m : SessionManager)
    (hs : m.sessions = l1 ++ l2)
    (hnd : (sessionKeys (l1 ++ l2)).Nodup) :
    (((l2.filter p).map Prod.fst).foldl SessionManager.popExpired m).sessions
      = l1 ++ l2.filter (fun e => !(p e)) ∧
    (((l2.filter p).map Prod.fst).foldl SessionManager.popExpired
        m).sessions_expired
      = m.sessions_expired + (l2.filter p).length ∧
    (((l2.filter p).map Prod.fst).foldl SessionManager.popExpired m).closed
      = m.closed ++ (l2.filter p).map Prod.fst ∧
    (((l2.filter p).map Prod.fst).foldl SessionManager.popExpired
        m).max_sessions = m.max_sessions ∧
    (((l2.filter p).map Prod.fst).foldl SessionManager.popExpired
        m).session_ttl = m.session_ttl ∧
    (((l2.filter p).map Prod.fst).foldl SessionManager.popExpired
        m).cache_hits = m.cache_hits ∧
    (((l2.filter p).map Prod.fst).foldl SessionManager.popExpired
        m).cache_misses = m.cache_misses ∧
    (((l2.filter p).map Prod.fst).foldl SessionManager.popExpired
        m).sessions_created = m.sessions_created ∧
    (((l2.filter p).map Prod.fst).foldl SessionManager.popExpired
        m).sessions_evicted = m.sessions_evicted := by
  induction l2 generalizing l1 m with
  | nil =>
    rw [List.append_nil] at hs
    refine ⟨?_, ?_, ?_, ?_, ?_, ?_, ?_, ?_, ?_⟩ <;> simp [hs]
  | cons e t ihT =>
    obtain ⟨k, v⟩ := e
    have hkeys : sessionKeys (l1 ++ (k, v) :: t)
        = sessionKeys l1 ++ k :: sessionKeys t := by
      rw [sessionKeys_append]
      rfl
    rw [hkeys] at hnd
    obtain ⟨hnd1, hndkt, hdisj⟩ := List.nodup_append.mp hnd
    have hk_l1 : k ∉ sessionKeys l1 := fun hk =>
      hdisj hk (List.mem_cons_self _ _)
    obtain ⟨hk_t, hndt⟩ := List.nodup_cons.mp hndkt
    have hnd_cut : (sessionKeys (l1 ++ t)).Nodup := by
      rw [sessionKeys_append]
      exact List.nodup_append.mpr
        ⟨hnd1, hndt, fun a ha hat => hdisj ha (List.mem_cons_of_mem _ hat)⟩
    by_cases hp : p (k, v) = true
    · simp only [List.filter_cons, hp, if_pos, List.map_cons,
        List.foldl_cons]
      have hlook : lookupMeta m.sessions k = some v := by
        rw [hs, lookupMeta_append_of_not_mem_left l1 ((k, v) :: t) k hk_l1]
        simp [lookupMeta]
      have herase : eraseKey m.sessions k = l1 ++ t := by
        rw [hs, eraseKey_append, eraseKey_of_not_mem l1 k hk_l1]
        simp only [eraseKey, if_pos]
        rw [eraseKey_of_not_mem t k hk_t]
      rw [popExpired_some m k v hlook, herase]
      have hrec := ihT l1
        { m with
          sessions := l1 ++ t
          sessions_expired := m.sessions_expired + 1
          closed := m.closed ++ [k] }
        rfl hnd_cut
      refine ⟨?_, ?_, ?_, ?_, ?_, ?_, ?_, ?_, ?_⟩
      · rw [hrec.1]
        simp [List.filter_cons, hp]
      · rw [hrec.2.1]
        dsimp only
        simp only [List.length_cons]
        omega
      · rw [hrec.2.2.1]
        dsimp only
        rw [List.append_assoc]
        rfl
      · rw [hrec.2.2.2.1]
      · rw [hrec.2.2.2.2.1]
      · rw [hrec.2.2.2.2.2.1]
      · rw [hrec.2.2.2.2.2.2.1]
      · rw [hrec.2.2.2.2.2.2.2.1]
      · rw [hrec.2.2.2.2.2.2.2.2]
    · have hpf : p (k, v) = false := by
        cases hpv : p (k, v)
        · rfl
        · exact absurd hpv hp
      simp only [List.filter_cons, hpf, Bool.false_eq_true, if_neg,
        Bool.not_false, if_false]
      have hrec := ihT (l1 ++ [(k, v)]) m
        (by rw [hs, List.append_assoc]; rfl)
        (by
          have : l1 ++ [(k, v)] ++ t = l1 ++ (k, v) :: t := by
            rw [List.append_assoc]
            rfl
          rw [this, hkeys]
          exact hnd)
      refine ⟨?_, hrec.2.1, hrec.2.2.1, hrec.2.2.2.1, hrec.2.2.2.2.1,
        hrec.2.2.2.2.2.1, hrec.2.2.2.2.2.2.1, hrec.2.2.2.2.2.2.2.1,
        hrec.2.2.2.2.2.2.2.2⟩
      rw [hrec.1]
      simp only [List.filter_cons, hpf, Bool.not_false, if_pos,
        List.append_assoc]
      rfl

/-- **C7** — `cleanup_expired_sessions` exactness: the sweep removes
exactly the entries with `now - last_accessed > session_ttl` (an entry
survives, untouched, iff its age is within the TTL), closes exactly the
removed ids in pool order, increments `sessions_expired` once per removed
entry, returns exactly the number removed, and changes no other counter.
Keys are unique because the pool is a Python `dict`. -/
theorem C7_sweep_exactness (m : SessionManager) (now : ℚ)
    (hnd : (sessionKeys m.sessions).Nodup) :
    (m.cleanup_expired_sessions now).2
      = (m.sessions.filter (expiredPred m.session_ttl now)).length ∧
    ((m.cleanup_expired_sessions now).1).sessions
      = m.sessions.filter (fun e => !(expiredPred m.session_ttl now e)) ∧
    (∀ e ∈ m.sessions,
      e ∈ ((m.cleanup_expired_sessions now).1).sessions
        ↔ now - e.2.last_accessed ≤ m.session_ttl) ∧
    ((m.cleanup_expired_sessions now).1).sessions_expired
      = m.sessions_expired + (m.cleanup_expired_sessions now).2 ∧
    ((m.cleanup_expired_sessions now).1).closed
      = m.closed
        ++ (m.sessions.filter (expiredPred m.session_ttl now)).map
            Prod.fst ∧
    m.sessions.length
      = ((m.cleanup_expired_sessions now).1).sessions.length
        + (m.cleanup_expired_sessions now).2 ∧
    ((m.cleanup_expired_sessions now).1).cache_hits = m.cache_hits ∧
    ((m.cleanup_expired_sessions now).1).cache_misses = m.cache_misses ∧
    ((m.cleanup_expired_sessions now).1).sessions_created
      = m.sessions_created ∧
    ((m.cleanup_expired_sessions now).1).sessions_evicted
      = m.sessions_evicted := by
  have hfold := popExpired_fold (expiredPred m.session_ttl now) m.sessions
    [] m (List.nil_append _).symm (by rw [List.nil_append]; exact hnd)
  have hfst : (m.cleanup_expired_sessions now).1
      = ((m.sessions.filter (expiredPred m.session_ttl now)).map
          Prod.fst).foldl SessionManager.popExpired m := rfl
  have hsnd : (m.cleanup_expired_sessions now).2
      = ((m.sessions.filter (expiredPred m.session_ttl now)).map
          Prod.fst).length := rfl
  have hsess : ((m.cleanup_expired_sessions now).1).sessions
      = m.sessions.filter (fun e => !(expiredPred m.session_ttl now e)) := by
    rw [hfst, hfold.1, List.nil_append]
  refine ⟨by rw [hsnd, List.length_map], hsess, ?_, ?_, ?_, ?_, ?_, ?_,
    ?_, ?_⟩
  · intro e he
    rw [hsess, List.mem_filter]
    simp only [he, true_and, Bool.not_eq_true', expiredPred,
      decide_eq_false_iff_not, not_lt]
  · rw [hfst, hsnd, hfold.2.1, List.length_map]
  · rw [hfst, hfold.2.2.1]
  · rw [hsess, hsnd, List.length_map]
    have := List.length_eq_length_filter_add
      (l := m.sessions) (expiredPred m.session_ttl now)
    omega
  · rw [hfst, hfold.2.2.2.2.2.1]
  · rw [hfst, hfold.2.2.2.2.2.2.1]
  · rw [hfst, hfold.2.2.2.2.2.2.2.1]
  · rw [hfst, hfold.2.2.2.2.2.2.2.2]

/-- A concrete two-entry pool (TTL 10): at `now = 15`, "a" (idle 15s) is
expired and "b" (accessed at 20) is not. -/
def sweepDemoPool : SessionManager :=
  SessionManager.mk 5 10 [("a", ⟨0, 0, 1⟩), ("b", ⟨0, 20, 1⟩)] 0 0 0 0 0 []

/-- Witness for C7 on `sweepDemoPool` at `now = 15`. -/
theorem C7_sweep_exactness_witness :
    (sweepDemoPool.cleanup_expired_sessions 15).2
      = (sweepDemoPool.sessions.filter
          (expiredPred sweepDemoPool.session_ttl 15)).length ∧
    ((sweepDemoPool.cleanup_expired_sessions 15).1).sessions_expired
      = sweepDemoPool.sessions_expired
        + (sweepDemoPool.cleanup_expired_sessions 15).2 ∧
    (("b", (⟨0, 20, 1⟩ : SessionMetadata))
        ∈ ((sweepDemoPool.cleanup_expired_sessions 15).1).sessions
      ↔ (15 : ℚ) - 20 ≤ sweepDemoPool.session_ttl) :=
  have h := C7_sweep_exactness sweepDemoPool 15 (by decide)
  ⟨h.1, h.2.2.2.1, h.2.2.1 ("b", ⟨0, 20, 1⟩) (by decide)⟩

/-- The body of `_close_session` inside the `try`: `clear_session()` then
the optional `close()`; `fail = true` models either call raising. -/
def rawCloseSession (fail : Bool) : Except String Unit :=
  if fail then Except.error "Failed to close session" else Except.ok ()

/-- `SessionManager._close_session`: its whole body runs under
`try/except Exception`, which logs the error and discards it. -/
def closeSession (fail : Bool) : Except String Unit :=
  match rawCloseSession fail with
  | Except.error _ => Except.ok ()
  | Except.ok _ => Except.ok ()

theorem closeSession_ok (fail : Bool) : closeSession fail = Except.ok () := by
  cases fail <;> rfl

/-- `_evict_oldest_session` with the close step in the error monad
(`failOf sid` says whether that session's teardown raises). -/
def SessionManager.evict_oldest_e (failOf : String → Bool)
    (m : SessionManager) : Except String SessionManager :=
  match m.sessions with
  | [] => Except.ok m
  | (sid, _) :: rest => do
      let _ ← closeSession (failOf sid)
      Except.ok { m with
        sessions := rest
        sessions_evicted := m.sessions_evicted + 1
        closed := m.closed ++ [sid] }

/-- `remove_session` with the close step in the error monad. -/
def SessionManager.remove_session_e (failOf : String → Bool)
    (m : SessionManager) (sid : String) : Except String SessionManager :=
  match lookupMeta m.sessions sid with
  | some _ => do
      let _ ← closeSession (failOf sid)
      Except.ok { m with
        sessions := eraseKey m.sessions sid
        closed := m.closed ++ [sid] }
  | none => Except.ok m

/-- One removal step of `cleanup_expired_sessions` with the close step in
the error monad. -/
def SessionManager.popExpired_e (failOf : String → Bool)
    (m : SessionManager) (sid : String) : Except String SessionManager :=
  match lookupMeta m.sessions sid with
  | some _ => do
      let _ ← closeSession (failOf sid)
      Except.ok { m with
        sessions := eraseKey m.sessions sid
        sessions_expired := m.sessions_expired + 1
        closed := m.closed ++ [sid] }
  | none => Except.ok m

/-- `cleanup_expired_sessions` with the close steps in the error monad. -/
def SessionManager.cleanup_expired_sessions_e (failOf : String → Bool)
    (m : SessionManager) (now : ℚ) : Except String (SessionManager × ℕ) := do
  let final ← ((m.sessions.filter (expiredPred m.session_ttl now)).map
    Prod.fst).foldlM (SessionManager.popExpired_e failOf) m
  Except.ok (final,
    ((m.sessions.filter (expiredPred m.session_ttl now)).map
      Prod.fst).length)

/-- The close loop of `shutdown` in the error monad. -/
def closeAll_e (failOf : String → Bool)
    (l : List (String × SessionMetadata)) : Except String Unit :=
  l.foldlM (fun x e => do
    let _ ← closeSession (failOf e.1)
    Except.ok x) ()

/-- `shutdown` (after cancelling the sweep loop) with the close steps in
the error monad. -/
def SessionManager.shutdown_e (failOf : String → Bool)
    (m : SessionManager) : Except String SessionManager := do
  let _ ← closeAll_e failOf m.sessions
  Except.ok m.shutdown

theorem evict_oldest_e_ok (failOf : String → Bool) (m : SessionManager) :
    SessionManager.evict_oldest_e failOf m = Except.ok m.evict_oldest := by
  obtain ⟨ms, ttl, sess, c1, c2, c3, c4, c5, cl⟩ := m
  cases sess with
  | nil => rfl
  | cons hd rest =>
    obtain ⟨k, v⟩ := hd
    simp only [SessionManager.evict_oldest_e, SessionManager.evict_oldest,
      closeSession_ok]
    rfl

theorem remove_session_e_ok (failOf : String → Bool) (m : SessionManager)
    (sid : String) :
    SessionManager.remove_session_e failOf m sid
      = Except.ok (m.remove_session sid) := by
  unfold SessionManager.remove_session_e SessionManager.remove_session
  cases hl : lookupMeta m.sessions sid with
  | some md =>
    rw [closeSession_ok]
    rfl
  | none => rfl

theorem popExpired_e_ok (failOf : String → Bool) (m : SessionManager)
    (sid : String) :
    SessionManager.popExpired_e failOf m sid
      = Except.ok (m.popExpired sid) := by
  unfold SessionManager.popExpired_e SessionManager.popExpired
  cases hl : lookupMeta m.sessions sid with
  | some md =>
    rw [closeSession_ok]
    rfl
  | none => rfl

theorem foldlM_popExpired_e_ok (failOf : String → Bool) (ids : List String)
    (m : SessionManager) :
    ids.foldlM (SessionManager.popExpired_e failOf) m
      = Except.ok (ids.foldl SessionManager.popExpired m) := by
  induction ids generalizing m with
  | nil => rfl
  | cons i rest ih =>
    rw [List.foldlM_cons, popExpired_e_ok, List.foldl_cons]
    exact ih (m.popExpired i)

theorem cleanup_e_ok (failOf : String → Bool) (m : SessionManager)
    (now : ℚ) :
    SessionManager.cleanup_expired_sessions_e failOf m now
      = Except.ok (m.cleanup_expired_sessions now) := by
  unfold SessionManager.cleanup_expired_sessions_e
    SessionManager.cleanup_expired_sessions
  rw [foldlM_popExpired_e_ok]
  rfl

theorem closeAll_e_ok (failOf : String → Bool)
    (l : List (String × SessionMetadata)) :
    closeAll_e failOf l = Except.ok () := by
  unfold closeAll_e
  induction l with
  | nil => rfl
  | cons hd rest ih =>
    rw [List.foldlM_cons, closeSession_ok]
    exact ih

theorem shutdown_e_ok (failOf : String → Bool) (m : SessionManager) :
    SessionManager.shutdown_e failOf m = Except.ok m.shutdown := by
  unfold SessionManager.shutdown_e
  rw [closeAll_e_ok]
  rfl

/-- **C9** — resource-close failures never propagate: whatever teardown
errors the handles raise (`failOf`), every pool operation that closes a
handle — LRU eviction, expiry sweep, explicit remove, shutdown — returns
`ok` of exactly the state the error-free operation produces; no teardown
error ever reaches the pool's caller.  The last two conjuncts show the
`try/except` is load-bearing: the raw close really raises. -/
theorem C9_close_errors_never_propagate (failOf : String → Bool)
    (m : SessionManager) (sid : String) (now : ℚ) :
    SessionManager.evict_oldest_e failOf m = Except.ok m.evict_oldest ∧
    SessionManager.remove_session_e failOf m sid
      = Except.ok (m.remove_session sid) ∧
    SessionManager.cleanup_expired_sessions_e failOf m now
      = Except.ok (m.cleanup_expired_sessions now) ∧
    SessionManager.shutdown_e failOf m = Except.ok m.shutdown ∧
    closeSession true = Except.ok () ∧
    rawCloseSession true = Except.error "Failed to close session" :=
  ⟨evict_oldest_e_ok failOf m, remove_session_e_ok failOf m sid,
    cleanup_e_ok failOf m now, shutdown_e_ok failOf m,
    closeSession_ok true, rfl⟩

/-- Circuit state: CLOSED / OPEN / HALF_OPEN. -/
inductive CircuitState
  | closed
  | open_
  | halfOpen
deriving DecidableEq

/-- `CircuitBreakerConfig` (defaults asserted by the unit tests:
failure_threshold 5, timeout_seconds 60, max_timeout_seconds 300).  Per
spec §4.1 the HALF_OPEN success threshold defaults to the failure
threshold. -/
structure CircuitBreakerConfig where
  failure_threshold : ℕ := 5
  timeout_seconds : ℚ := 60
  max_timeout_seconds : ℚ := 300
  success_threshold : ℕ := 5
deriving DecidableEq

/-- The breaker-specific error: carries the breaker's name and state. -/
structure CircuitBreakerError where
  breaker_name : String
  breaker_state : CircuitState
deriving DecidableEq

/-- Result of one `call`: rejected fast (operation not invoked), or the
operation's own success / failure propagated unchanged. -/
inductive CallResult
  | rejected (e : CircuitBreakerError)
  | success
  | failure
deriving DecidableEq

/-- Modelled from the spec: the `CircuitBreaker` of
`performance/circuit_breaker.py`, whose implementation module is absent
from the source tree (only `tests/unit/test_circuit_breaker.py` and its
callers are present).  Fields and transitions follow spec §4.1 and the
behaviour the unit tests assert. -/
structure CircuitBreaker where
  name : String
  config : CircuitBreakerConfig
  state : CircuitState
  failure_count : ℕ
  success_count : ℕ
  current_timeout : ℚ
  opened_at : ℚ
  total_requests : ℕ
  total_successes : ℕ
  total_failures : ℕ
deriving DecidableEq

/-- Modelled from the spec: a fresh breaker is CLOSED, counters zero,
`current_timeout = timeout_seconds`. -/
def CircuitBreaker.init (name : String) (config : CircuitBreakerConfig) :
    CircuitBreaker :=
  { name := name, config := config, state := CircuitState.closed,
    failure_count := 0, success_count := 0,
    current_timeout := config.timeout_seconds, opened_at := 0,
    total_requests := 0, total_successes := 0, total_failures := 0 }

/-- Modelled from the spec: invoking the wrapped operation in CLOSED or
HALF_OPEN and applying the transition; `opFails` says whether the wrapped
operation raises.  Every call bumps `total_requests` and one of
`total_successes` / `total_failures`. -/
def CircuitBreaker.attempt (cb : CircuitBreaker) (now : ℚ)
    (opFails : Bool) : CircuitBreaker × CallResult × Bool :=
  if opFails then
    match cb.state with
    | CircuitState.halfOpen =>
        ({ cb with
           state := CircuitState.open_
           opened_at := now
           current_timeout :=
             min (cb.current_timeout * 2) cb.config.max_timeout_seconds
           success_count := 0
           total_requests := cb.total_requests + 1
           total_failures := cb.total_failures + 1 },
         CallResult.failure, true)
    | _ =>
        if cb.config.failure_threshold ≤ cb.failure_count + 1 then
          ({ cb with
             state := CircuitState.open_
             failure_count := cb.failure_count + 1
             opened_at := now
             current_timeout :=
               min (cb.current_timeout * 2) cb.config.max_timeout_seconds
             total_requests := cb.total_requests + 1
             total_failures := cb.total_failures + 1 },
           CallResult.failure, true)
        else
          ({ cb with
             failure_count := cb.failure_count + 1
             total_requests := cb.total_requests + 1
             total_failures := cb.total_failures + 1 },
           CallResult.failure, true)
  else
    match cb.state with
    | CircuitState.halfOpen =>
        if cb.config.success_threshold ≤ cb.success_count + 1 then
          ({ cb with
             state := CircuitState.closed
             failure_count := 0
             success_count := 0
             current_timeout := cb.config.timeout_seconds
             total_requests := cb.total_requests + 1
             total_successes := cb.total_successes + 1 },
           CallResult.success, true)
        else
          ({ cb with
             success_count := cb.success_count + 1
             total_requests := cb.total_requests + 1
             total_successes := cb.total_successes + 1 },
           CallResult.success, true)
    | _ =>
        ({ cb with
           failure_count := 0
           total_requests := cb.total_requests + 1
           total_successes := cb.total_successes + 1 },
         CallResult.success, true)

/-- Modelled from the spec: `CircuitBreaker.call`.  In OPEN within the
timeout the call is rejected with the breaker-specific error and the
wrapped operation is not invoked (third component `false`); past the
timeout the breaker moves to HALF_OPEN and attempts this one call. -/
def CircuitBreaker.call (cb : CircuitBreaker) (now : ℚ) (opFails : Bool) :
    CircuitBreaker × CallResult × Bool :=
  match cb.state with
  | CircuitState.open_ =>
      if now - cb.opened_at < cb.current_timeout then
        ({ cb with
           total_requests := cb.total_requests + 1
           total_failures := cb.total_failures + 1 },
         CallResult.rejected ⟨cb.name, CircuitState.open_⟩, false)
      else
        CircuitBreaker.attempt
          { cb with state := CircuitState.halfOpen, success_count := 0 }
          now opFails
  | _ => CircuitBreaker.attempt cb now opFails

/-- Modelled from the spec: `reset()` forces CLOSED, zeroes the counters,
restores `current_timeout = timeout_seconds`. -/
def CircuitBreaker.reset (cb : CircuitBreaker) : CircuitBreaker :=
  { cb with
    state := CircuitState.closed
    failure_count := 0
    success_count := 0
    current_timeout := cb.config.timeout_seconds }

/-- `n` consecutive failing calls at time `now`. -/
def CircuitBreaker.failN (cb : CircuitBreaker) (now : ℚ) :
    ℕ → CircuitBreaker
  | 0 => cb
  | n + 1 => CircuitBreaker.failN (cb.call now true).1 now n

theorem call_closed (cb : CircuitBreaker) (now : ℚ) (opFails : Bool)
    (h : cb.state = CircuitState.closed) :
    cb.call now opFails = cb.attempt now opFails := by
  unfold CircuitBreaker.call
  rw [h]

theorem attempt_closed_fail_below (cb : CircuitBreaker) (now : ℚ)
    (h : cb.state = CircuitState.closed)
    (hf : cb.failure_count + 1 < cb.config.failure_threshold) :
    cb.attempt now true
      = ({ cb with
           failure_count := cb.failure_count + 1
           total_requests := cb.total_requests + 1
           total_failures := cb.total_failures + 1 },
         CallResult.failure, true) := by
  unfold CircuitBreaker.attempt
  rw [h, if_pos rfl]
  rw [if_neg (by omega)]

theorem attempt_closed_fail_reach (cb : CircuitBreaker) (now : ℚ)
    (h : cb.state = CircuitState.closed)
    (hf : cb.config.failure_threshold ≤ cb.failure_count + 1) :
    cb.attempt now true
      = ({ cb with
           state := CircuitState.open_
           failure_count := cb.failure_count + 1
           opened_at := now
           current_timeout :=
             min (cb.current_timeout * 2) cb.config.max_timeout_seconds
           total_requests := cb.total_requests + 1
           total_failures := cb.total_failures + 1 },
         CallResult.failure, true) := by
  unfold CircuitBreaker.attempt
  rw [h, if_pos rfl]
  rw [if_pos hf]

theorem call_open_fast (cb : CircuitBreaker) (now : ℚ) (opFails : Bool)
    (h : cb.state = CircuitState.open_)
    (ht : now - cb.opened_at < cb.current_timeout) :
    cb.call now opFails
      = ({ cb with
           total_requests := cb.total_requests + 1
           total_failures := cb.total_failures + 1 },
         CallResult.rejected ⟨cb.name, CircuitState.open_⟩, false) := by
  unfold CircuitBreaker.call
  rw [h]
  rw [if_pos ht]

theorem failN_below (n : ℕ) (cb : CircuitBreaker) (now : ℚ)
    (hst : cb.state = CircuitState.closed)
    (hn : cb.failure_count + n < cb.config.failure_threshold) :
    (cb.failN now n).state = CircuitState.closed ∧
    (cb.failN now n).failure_count = cb.failure_count + n ∧
    (cb.failN now n).name = cb.name ∧
    (cb.failN now n).config = cb.config ∧
    (cb.failN now n).current_timeout = cb.current_timeout := by
  induction n generalizing cb with
  | zero => exact ⟨hst, rfl, rfl, rfl, rfl⟩
  | succ n ih =>
    have hone : (cb.call now true).1
        = { cb with
            failure_count := cb.failure_count + 1
            total_requests := cb.total_requests + 1
            total_failures := cb.total_failures + 1 } := by
      rw [call_closed cb now true hst,
        attempt_closed_fail_below cb now hst (by omega)]
    have hunf : cb.failN now (n + 1)
        = CircuitBreaker.failN (cb.call now true).1 now n := rfl
    rw [hunf, hone]
    have hrec := ih
      { cb with
        failure_count := cb.failure_count + 1
        total_requests := cb.total_requests + 1
        total_failures := cb.total_failures + 1 }
      hst (by dsimp only; omega)
    refine ⟨hrec.1, ?_, hrec.2.2.1, hrec.2.2.2.1, hrec.2.2.2.2⟩
    rw [hrec.2.1]
    dsimp only
    omega

theorem failN_succ_last (n : ℕ) (cb : CircuitBreaker) (now : ℚ) :
    cb.failN now (n + 1) = ((cb.failN now n).call now true).1 := by
  induction n generalizing cb with
  | zero => rfl
  | succ n ih =>
    show CircuitBreaker.failN (cb.call now true).1 now (n + 1) = _
    rw [ih (cb.call now true).1]
    rfl

/-- **C1** — CallBreaker fail-fast (modelled from the spec; the
implementation module is absent from the tree): from CLOSED with zero
consecutive failures, exactly `failure_threshold` consecutive failing
calls leave the breaker OPEN with `opened_at` the failure time and the
timeout doubled (capped); a further call while
`now - opened_at < current_timeout` returns the breaker-specific error
naming the breaker and the OPEN state, does **not** invoke the wrapped
operation (third component `false`, so the caller's invocation counter is
unchanged), stays OPEN, and leaves `failure_count` at the threshold while
still counting the request. -/
theorem C1_breaker_fail_fast (cb : CircuitBreaker) (t now2 : ℚ) (b : Bool)
    (hst : cb.state = CircuitState.closed)
    (hfc : cb.failure_count = 0)
    (hthr : 1 ≤ cb.config.failure_threshold)
    (hwithin : now2 - t
      < (cb.failN t cb.config.failure_threshold).current_timeout) :
    (cb.failN t cb.config.failure_threshold).state = CircuitState.open_ ∧
    (cb.failN t cb.config.failure_threshold).opened_at = t ∧
    (cb.failN t cb.config.failure_threshold).failure_count
      = cb.config.failure_threshold ∧
    (cb.failN t cb.config.failure_threshold).current_timeout
      = min (cb.current_timeout * 2) cb.config.max_timeout_seconds ∧
    ((cb.failN t cb.config.failure_threshold).call now2 b).2.1
      = CallResult.rejected ⟨cb.name, CircuitState.open_⟩ ∧
    ((cb.failN t cb.config.failure_threshold).call now2 b).2.2 = false ∧
    ((cb.failN t cb.config.failure_threshold).call now2 b).1.state
      = CircuitState.open_ ∧
    ((cb.failN t cb.config.failure_threshold).call now2 b).1.failure_count
      = cb.config.failure_threshold ∧
    ((cb.failN t cb.config.failure_threshold).call now2 b).1.total_requests
      = (cb.failN t cb.config.failure_threshold).total_requests + 1 := by
  obtain ⟨T, hT⟩ : ∃ T, cb.config.failure_threshold = T + 1 :=
    ⟨cb.config.failure_threshold - 1, by omega⟩
  rw [hT] at hwithin ⊢
  have hmid := failN_below T cb t hst (by omega)
  have hlast : cb.failN t (T + 1) = ((cb.failN t T).call t true).1 :=
    failN_succ_last T cb t
  have hreach : (cb.failN t T).config.failure_threshold
      ≤ (cb.failN t T).failure_count + 1 := by
    rw [hmid.2.2.2.1, hmid.2.1, hfc, hT]
    omega
  have hcallT : ((cb.failN t T).call t true).1
      = { cb.failN t T with
          state := CircuitState.open_
          failure_count := (cb.failN t T).failure_count + 1
          opened_at := t
          current_timeout := min ((cb.failN t T).current_timeout * 2)
            (cb.failN t T).config.max_timeout_seconds
          total_requests := (cb.failN t T).total_requests + 1
          total_failures := (cb.failN t T).total_failures + 1 } := by
    rw [call_closed _ t true hmid.1,
      attempt_closed_fail_reach _ t hmid.1 hreach]
  have hO1 : (cb.failN t (T + 1)).state = CircuitState.open_ := by
    rw [hlast, hcallT]
  have hO2 : (cb.failN t (T + 1)).opened_at = t := by
    rw [hlast, hcallT]
  have hO3 : (cb.failN t (T + 1)).failure_count = T + 1 := by
    rw [hlast, hcallT]
    dsimp only
    rw [hmid.2.1, hfc]
    omega
  have hO4 : (cb.failN t (T + 1)).current_timeout
      = min (cb.current_timeout * 2) cb.config.max_timeout_seconds := by
    rw [hlast, hcallT]
    dsimp only
    rw [hmid.2.2.2.2, hmid.2.2.2.1]
  have hname : (cb.failN t (T + 1)).name = cb.name := by
    rw [hlast, hcallT]
    dsimp only
    exact hmid.2.2.1
  have ht2 : now2 - (cb.failN t (T + 1)).opened_at
      < (cb.failN t (T + 1)).current_timeout := by
    rw [hO2]
    exact hwithin
  have hrej := call_open_fast (cb.failN t (T + 1)) now2 b hO1 ht2
  refine ⟨hO1, hO2, hO3, hO4, ?_, ?_, ?_, ?_, ?_⟩
  · rw [hrej]
    dsimp only
    rw [hname]
  · rw [hrej]
  · rw [hrej]
    dsimp only
    exact hO1
  · rw [hrej]
    dsimp only
    exact hO3
  · rw [hrej]

/-- Witness for C1: the unit tests' breaker (threshold 3, base timeout 2s,
max 10s): three failing calls at `t = 0`, then a call at `t = 1` (within
the doubled 4s timeout). -/
theorem C1_breaker_fail_fast_witness :
    ((CircuitBreaker.init "test_breaker" ⟨3, 2, 10, 3⟩).failN 0 3).state
      = CircuitState.open_ ∧
    (((CircuitBreaker.init "test_breaker" ⟨3, 2, 10, 3⟩).failN 0 3).call 1
        true).2.1
      = CallResult.rejected ⟨"test_breaker", CircuitState.open_⟩ ∧
    (((CircuitBreaker.init "test_breaker" ⟨3, 2, 10, 3⟩).failN 0 3).call 1
        true).2.2 = false :=
  have hstate : (CircuitBreaker.init "test_breaker" ⟨3, 2, 10, 3⟩).failN 0
      (CircuitBreaker.init "test_breaker" ⟨3, 2, 10, 3⟩).config.failure_threshold
      = { name := "test_breaker", config := ⟨3, 2, 10, 3⟩,
          state := CircuitState.open_, failure_count := 3, success_count := 0,
          current_timeout := min ((2 : ℚ) * 2) 10, opened_at := 0,
          total_requests := 3, total_successes := 0,
          total_failures := 3 } := rfl
  have h := C1_breaker_fail_fast
    (CircuitBreaker.init "test_breaker" ⟨3, 2, 10, 3⟩) 0 1 true
    rfl rfl (by decide)
    (by rw [hstate]; norm_num [min_def])
  ⟨h.1, h.2.2.2.2.1, h.2.2.2.2.2.1⟩
